import Mathlib

/-!
Verification of the concurrency core of the learning-golang repository.

The repository's only non-trivial subsystem is the set of goroutine/channel
patterns in the concurrency course file: producer/consumer over a channel,
a worker pool, a fan-out/fan-in stage, WaitGroup synchronisation and a
select-based timeout.  This file gives a shallow embedding of those
patterns as explicit state-transition systems and proves the properties
claimed of them.

Modelling conventions:
- a Go channel is a FIFO buffer of pending items plus a one-time closed
  flag; capacity bounds only restrict the set of interleavings, so every
  safety property proved over the unbounded model also holds for the
  bounded channels of the source;
- each goroutine is a program counter plus the value it currently holds
  between a receive and the matching send, and the whole system is a
  nondeterministic step relation over the joint state, so theorems
  quantify over every interleaving;
- reachability is the reflexive-transitive closure of the step relation;
- small executable schedulers replay one concrete interleaving so that
  witnesses can evaluate the systems on concrete inputs.
-/

set_option linter.unusedVariables false
set_option linter.unnecessarySeqFocus false

namespace LearningGo

/-- Model of a Go channel: the FIFO buffer of items sent but not yet
received, together with the one-time closed flag. -/
structure Chan (α : Type) where
  buf : List α
  closed : Bool
deriving DecidableEq, Repr

variable {α : Type}

/-- Outcome of a channel send.  Modelled from the spec: Go panics on
send-after-close ("send-after-close is a fatal usage error"), which the
model surfaces as the explicit sendOnClosed signal. -/
inductive SendResult (α : Type) where
  | ok (c : Chan α)
  | sendOnClosed
deriving DecidableEq, Repr

/-- Outcome of a channel receive: a value together with the remaining
channel, the explicit "closed, no value" signal, or the information that
the caller would block. -/
inductive RecvResult (α : Type) where
  | got (v : α) (c : Chan α)
  | closedEmpty
  | wouldBlock
deriving DecidableEq, Repr

/-- Modelled from the spec: the Go runtime's channel send (`ch <- v`).
Sending to a closed channel is a fatal usage error; otherwise the item is
appended to the buffer. -/
def Chan.send (c : Chan α) (v : α) : SendResult α :=
  if c.closed then SendResult.sendOnClosed
  else SendResult.ok { c with buf := c.buf ++ [v] }

/-- Modelled from the spec: the Go runtime's channel receive (`<-ch`).
Pending buffered items are delivered first even after close; a closed and
drained channel yields the explicit "closed, no value" signal instead of
blocking. -/
def Chan.recv (c : Chan α) : RecvResult α :=
  match c.buf with
  | v :: rest => RecvResult.got v { c with buf := rest }
  | [] => if c.closed then RecvResult.closedEmpty else RecvResult.wouldBlock

/-- Modelled from the spec: the Go runtime's `close(ch)`: pending items
remain deliverable, only the flag is set. -/
def Chan.close (c : Chan α) : Chan α := { c with closed := true }

/-- Run a deterministic schedule of actions over a guarded executable step
function, skipping actions whose guard fails.  Used to replay one concrete
interleaving of each transition system. -/
def runD {σ τ : Type} (f : σ → τ → Option σ) (s : σ) (acts : List τ) : σ :=
  acts.foldl (fun t a => (f t a).getD t) s

/-- Outcome of the select statement in fetchWithTimeout. -/
inductive FetchOutcome (α : Type) where
  | received (v : α)
  | timedOut
deriving DecidableEq, Repr

/-- Modelled from the spec: the semantics of the source's
`select { case result := <-ch : ...; case <-time.After(d) : ... }` in
fetchWithTimeout.  recvAt is the time at which a value becomes available
on the channel (none if it never does) and d is the timer duration; the
select resolves to whichever event occurs first, and on a tie either
branch may be taken, as in Go. -/
inductive FetchResolves (recvAt : Option Nat) (d : Nat) (v : α) : FetchOutcome α → Prop where
  | chanFirst (t : Nat) : recvAt = some t → t ≤ d →
      FetchResolves recvAt d v (FetchOutcome.received v)
  | timerFirst : (∀ t, recvAt = some t → d ≤ t) →
      FetchResolves recvAt d v FetchOutcome.timedOut

/-- Embedding of the source's Job record (ID plus payload). -/
structure Job where
  ID : Nat
  Data : String
deriving DecidableEq, Repr

/-- Result of processing one Job.  The source's Result carries the Job and
an Output; the err field is modelled from the spec: "Errors inside
transformFn are captured into the Result (error field)", a field the
worker-pool demonstration in the source omits because its transform cannot
fail. -/
structure PoolResult where
  job : Job
  output : Option String
  err : Option String
deriving DecidableEq, Repr

/-- Modelled from the spec: how a pool worker turns one Job into a Result,
capturing a transform failure into the error field instead of stopping. -/
def mkResult (transformFn : Job → Except String String) (j : Job) : PoolResult :=
  match transformFn j with
  | Except.ok out => { job := j, output := some out, err := none }
  | Except.error e => { job := j, output := none, err := some e }

/-- Embedding of the source's worker loop `for job := range jobs`, applied
to the list of jobs the worker receives before the input closes: one
Result per received Job, in order. -/
def runWorker (transformFn : Job → Except String String) (jobs : List Job) : List PoolResult :=
  jobs.map (mkResult transformFn)

/-- Transform used by the error-containment witness: fails on Job 2. -/
def demoTransform (j : Job) : Except String String :=
  if j.ID = 2 then Except.error "boom" else Except.ok j.Data

/-- Jobs used by the error-containment witness. -/
def demoJobs : List Job :=
  [{ ID := 1, Data := "a" }, { ID := 2, Data := "b" }, { ID := 3, Data := "c" }]

/-- Joint state of the source's producer-consumer pipeline: the shared
channel, the producer's loop counter (next value to send, starting at 1 as
in `for i := 1; i <= count; i++`), the values the consumer has taken off
the channel in order, and whether the consumer's range loop has ended. -/
structure PCState where
  ch : Chan Nat
  next : Nat
  consumed : List Nat
  consDone : Bool
deriving DecidableEq, Repr

/-- Initial producer-consumer state: fresh channel, producer about to send
1, nothing consumed. -/
def pcInit : PCState :=
  { ch := { buf := [], closed := false }, next := 1, consumed := [], consDone := false }

/-- Interleaving semantics of producer and consumer.  The producer sends
1..count then closes the channel (`close(ch)` after the loop); the
consumer's `for value := range ch` takes the next buffered value, or
terminates once the channel is closed and drained. -/
inductive PCStep (count : Nat) : PCState → PCState → Prop where
  | prodSend (s : PCState) : s.next ≤ count →
      PCStep count s { s with ch := { s.ch with buf := s.ch.buf ++ [s.next] }, next := s.next + 1 }
  | prodClose (s : PCState) : count < s.next → s.ch.closed = false →
      PCStep count s { s with ch := Chan.close s.ch }
  | consRecv (s : PCState) (v : Nat) (rest : List Nat) :
      s.consDone = false → s.ch.buf = v :: rest →
      PCStep count s { s with ch := { s.ch with buf := rest }, consumed := s.consumed ++ [v] }
  | consFinish (s : PCState) : s.consDone = false → s.ch.buf = [] → s.ch.closed = true →
      PCStep count s { s with consDone := true }

/-- Schedulable actions of the producer-consumer system. -/
inductive PCAct where
  | sendA
  | closeA
  | recvA
  | finishA
deriving DecidableEq, Repr

/-- Guarded executable form of one producer-consumer step. -/
def pcApply (count : Nat) (s : PCState) : PCAct → Option PCState
  | PCAct.sendA =>
    if s.next ≤ count then
      some { s with ch := { s.ch with buf := s.ch.buf ++ [s.next] }, next := s.next + 1 }
    else none
  | PCAct.closeA =>
    if count < s.next then
      match s.ch.closed with
      | false => some { s with ch := Chan.close s.ch }
      | true => none
    else none
  | PCAct.recvA =>
    match s.consDone, s.ch.buf with
    | false, v :: rest =>
      some { s with ch := { s.ch with buf := rest }, consumed := s.consumed ++ [v] }
    | _, _ => none
  | PCAct.finishA =>
    match s.consDone, s.ch.buf, s.ch.closed with
    | false, [], true => some { s with consDone := true }
    | _, _, _ => none

/-- Replay a schedule of producer-consumer actions. -/
def pcRun (count : Nat) (s : PCState) (acts : List PCAct) : PCState :=
  runD (pcApply count) s acts

/-- Schedule realising the count = 5 producer-consumer run. -/
def pcSched5 : List PCAct :=
  [PCAct.sendA, PCAct.sendA, PCAct.sendA, PCAct.sendA, PCAct.sendA, PCAct.closeA,
   PCAct.recvA, PCAct.recvA, PCAct.recvA, PCAct.recvA, PCAct.recvA, PCAct.finishA]

/-- Program counter of the coordinator in the WaitGroup demonstration
(courseFour section 7): it alternates `wg.Add(1)` and `go downloadFile`
K times, then calls `wg.Wait()`. -/
inductive MainPC where
  | toAdd (k : Nat)
  | toSpawn (k : Nat)
  | waiting
  | returned
deriving DecidableEq, Repr

/-- Joint state of the WaitGroup demonstration: the counter (an integer,
so that a hypothetical extra decrement would be visible as a negative
value), one completion flag per spawned task, and the coordinator's
program counter. -/
structure WgState where
  counter : Int
  tasks : List Bool
  main : MainPC
deriving DecidableEq, Repr

/-- Initial WaitGroup state for K tasks. -/
def wgInit (K : Nat) : WgState :=
  { counter := 0, tasks := [], main := if K = 0 then MainPC.waiting else MainPC.toAdd 0 }

/-- Interleaving semantics of the WaitGroup demonstration.  Modelled from
the spec: add increments the counter, each task's single `Done()`
decrements it (downloadFile's deferred `wg.Done()` on completion), and
`Wait()` returns only when the counter is zero. -/
inductive WgStep (K : Nat) : WgState → WgState → Prop where
  | add (s : WgState) (k : Nat) : s.main = MainPC.toAdd k →
      WgStep K s { s with counter := s.counter + 1, main := MainPC.toSpawn k }
  | spawn (s : WgState) (k : Nat) : s.main = MainPC.toSpawn k →
      WgStep K s { s with tasks := s.tasks ++ [false], main := if k + 1 < K then MainPC.toAdd (k + 1) else MainPC.waiting }
  | taskDone (s : WgState) (i : Nat) : s.tasks[i]? = some false →
      WgStep K s { s with tasks := s.tasks.set i true, counter := s.counter - 1 }
  | waitReturn (s : WgState) : s.main = MainPC.waiting → s.counter = 0 →
      WgStep K s { s with main := MainPC.returned }

/-- Schedulable actions of the WaitGroup system. -/
inductive WgAct where
  | addA
  | spawnA
  | doneA (i : Nat)
  | waitA
deriving DecidableEq, Repr

/-- Guarded executable form of one WaitGroup step. -/
def wgApply (K : Nat) (s : WgState) : WgAct → Option WgState
  | WgAct.addA =>
    match s.main with
    | MainPC.toAdd k => some { s with counter := s.counter + 1, main := MainPC.toSpawn k }
    | _ => none
  | WgAct.spawnA =>
    match s.main with
    | MainPC.toSpawn k =>
      some { s with tasks := s.tasks ++ [false], main := if k + 1 < K then MainPC.toAdd (k + 1) else MainPC.waiting }
    | _ => none
  | WgAct.doneA i =>
    match s.tasks[i]? with
    | some false => some { s with tasks := s.tasks.set i true, counter := s.counter - 1 }
    | _ => none
  | WgAct.waitA =>
    match s.main with
    | MainPC.waiting => if s.counter = 0 then some { s with main := MainPC.returned } else none
    | _ => none

/-- Replay a schedule of WaitGroup actions. -/
def wgRun (K : Nat) (s : WgState) (acts : List WgAct) : WgState :=
  runD (wgApply K) s acts

/-- Schedule realising the K = 2 WaitGroup run to completion. -/
def wgSched2 : List WgAct :=
  [WgAct.addA, WgAct.spawnA, WgAct.addA, WgAct.spawnA,
   WgAct.doneA 0, WgAct.doneA 1, WgAct.waitA]

/-- Schedule realising a K = 3 WaitGroup run with interleaved completion. -/
def wgSched3 : List WgAct :=
  [WgAct.addA, WgAct.spawnA, WgAct.addA, WgAct.spawnA, WgAct.doneA 0,
   WgAct.addA, WgAct.spawnA, WgAct.doneA 2, WgAct.doneA 1, WgAct.waitA]

/-- Number of tasks that have not yet called Done. -/
def countFalse (l : List Bool) : Nat :=
  (l.map (fun b => if b then 0 else 1)).sum

/-- Pending increment held by the coordinator between an Add and the
matching spawn. -/
def pend : MainPC → Int
  | MainPC.toSpawn _ => 1
  | _ => 0

/-- Program counter of one fanOut worker: it loops `for val := range input`,
holding the received value between the receive and the send of its square,
and closes its private channel and stops when the input is closed and
drained. -/
inductive WorkerPC where
  | running
  | sending (v : Nat)
  | done
deriving DecidableEq, Repr

/-- Program counter of one fanIn merge goroutine: it loops
`for val := range c`, holding the received value between the receive from
its private channel and the send to the shared output, and calls the
deferred wg.Done and stops when its private channel is closed and
drained. -/
inductive MergePC where
  | running
  | sending (v : Nat)
  | done
deriving DecidableEq, Repr

/-- Program counter of the fanIn finalizer goroutine `wg.Wait(); close(out)`. -/
inductive FinPC where
  | waiting
  | done
deriving DecidableEq, Repr

/-- Program counter of the goroutine draining the merged output channel. -/
inductive ConsPC where
  | running
  | done
deriving DecidableEq, Repr

/-- Joint state of the fan-out/fan-in stage: the shared input channel, the
private channel of each fanOut worker, the shared merged output channel,
the program counters of the fanOut workers, the fanIn merge goroutines,
the finalizer and the draining consumer, the WaitGroup counter of fanIn,
and the list of values the consumer has received from the merged output,
in order. -/
structure FanState where
  input : Chan Nat
  mids : List (Chan Nat)
  out : Chan Nat
  workers : List WorkerPC
  merges : List MergePC
  fin : FinPC
  cons : ConsPC
  wg : Nat
  recvd : List Nat
deriving DecidableEq, Repr

/-- Initial state of the fan-out/fan-in stage: the input channel carries
the items S and is already closed by the coordinator, fanOut has spawned n
workers each with a fresh private channel, fanIn has called wg.Add(1) once
per merge goroutine (so the counter starts at n) and spawned the finalizer,
and a consumer stands ready to drain the merged output. -/
def fanInit (S : List Nat) (n : Nat) : FanState :=
  { input := { buf := S, closed := true }
  , mids := List.replicate n { buf := [], closed := false }
  , out := { buf := [], closed := false }
  , workers := List.replicate n WorkerPC.running
  , merges := List.replicate n MergePC.running
  , fin := FinPC.waiting
  , cons := ConsPC.running
  , wg := n
  , recvd := [] }

/-- Interleaving semantics of the fan-out/fan-in stage, one constructor
per atomic action of the source:  a worker receives a value from the
shared input or, once it is closed and drained, closes its private channel
and stops;  a worker sends the square `val * val` to its private channel;
a merge goroutine receives from its private channel or, once that is
closed and drained, performs its deferred wg.Done and stops;  a merge
goroutine forwards its value to the shared output;  the finalizer closes
the shared output once the WaitGroup counter is zero;  and the consumer
takes the next value off the merged output or terminates once it is closed
and drained. -/
inductive FanStep : FanState → FanState → Prop where
  | fanRecv (s : FanState) (i v : Nat) (rest : List Nat) :
      s.workers[i]? = some WorkerPC.running → s.input.buf = v :: rest →
      FanStep s { s with input := { s.input with buf := rest }, workers := s.workers.set i (WorkerPC.sending v) }
  | fanClose (s : FanState) (i : Nat) (c : Chan Nat) :
      s.workers[i]? = some WorkerPC.running → s.mids[i]? = some c →
      s.input.buf = [] → s.input.closed = true →
      FanStep s { s with workers := s.workers.set i WorkerPC.done, mids := s.mids.set i (Chan.close c) }
  | fanSend (s : FanState) (i v : Nat) (c : Chan Nat) :
      s.workers[i]? = some (WorkerPC.sending v) → s.mids[i]? = some c →
      FanStep s { s with workers := s.workers.set i WorkerPC.running, mids := s.mids.set i { c with buf := c.buf ++ [v * v] } }
  | mergeRecv (s : FanState) (i v : Nat) (rest : List Nat) (c : Chan Nat) :
      s.merges[i]? = some MergePC.running → s.mids[i]? = some c → c.buf = v :: rest →
      FanStep s { s with merges := s.merges.set i (MergePC.sending v), mids := s.mids.set i { c with buf := rest } }
  | mergeClose (s : FanState) (i : Nat) (c : Chan Nat) :
      s.merges[i]? = some MergePC.running → s.mids[i]? = some c →
      c.buf = [] → c.closed = true →
      FanStep s { s with merges := s.merges.set i MergePC.done, wg := s.wg - 1 }
  | mergeSend (s : FanState) (i v : Nat) :
      s.merges[i]? = some (MergePC.sending v) →
      FanStep s { s with merges := s.merges.set i MergePC.running, out := { s.out with buf := s.out.buf ++ [v] } }
  | finClose (s : FanState) :
      s.fin = FinPC.waiting → s.wg = 0 →
      FanStep s { s with out := Chan.close s.out, fin := FinPC.done }
  | consRecv (s : FanState) (v : Nat) (rest : List Nat) :
      s.cons = ConsPC.running → s.out.buf = v :: rest →
      FanStep s { s with out := { s.out with buf := rest }, recvd := s.recvd ++ [v] }
  | consFinish (s : FanState) :
      s.cons = ConsPC.running → s.out.buf = [] → s.out.closed = true →
      FanStep s { s with cons := ConsPC.done }

/-- Schedulable actions of the fan-out/fan-in system. -/
inductive FanAct where
  | wRecv (i : Nat)
  | wClose (i : Nat)
  | wSend (i : Nat)
  | mRecv (i : Nat)
  | mClose (i : Nat)
  | mSend (i : Nat)
  | finC
  | cRecv
  | cDone
deriving DecidableEq, Repr

/-- Guarded executable form of one fan-out/fan-in step. -/
def fanApply (s : FanState) : FanAct → Option FanState
  | FanAct.wRecv i =>
    match s.workers[i]?, s.input.buf with
    | some WorkerPC.running, v :: rest =>
      some { s with input := { s.input with buf := rest }, workers := s.workers.set i (WorkerPC.sending v) }
    | _, _ => none
  | FanAct.wClose i =>
    match s.workers[i]?, s.mids[i]?, s.input.buf, s.input.closed with
    | some WorkerPC.running, some c, [], true =>
      some { s with workers := s.workers.set i WorkerPC.done, mids := s.mids.set i (Chan.close c) }
    | _, _, _, _ => none
  | FanAct.wSend i =>
    match s.workers[i]?, s.mids[i]? with
    | some (WorkerPC.sending v), some c =>
      some { s with workers := s.workers.set i WorkerPC.running, mids := s.mids.set i { c with buf := c.buf ++ [v * v] } }
    | _, _ => none
  | FanAct.mRecv i =>
    match s.merges[i]?, s.mids[i]? with
    | some MergePC.running, some c =>
      match c.buf with
      | v :: rest =>
        some { s with merges := s.merges.set i (MergePC.sending v), mids := s.mids.set i { c with buf := rest } }
      | [] => none
    | _, _ => none
  | FanAct.mClose i =>
    match s.merges[i]?, s.mids[i]? with
    | some MergePC.running, some c =>
      match c.buf, c.closed with
      | [], true => some { s with merges := s.merges.set i MergePC.done, wg := s.wg - 1 }
      | _, _ => none
    | _, _ => none
  | FanAct.mSend i =>
    match s.merges[i]? with
    | some (MergePC.sending v) =>
      some { s with merges := s.merges.set i MergePC.running, out := { s.out with buf := s.out.buf ++ [v] } }
    | _ => none
  | FanAct.finC =>
    match s.fin with
    | FinPC.waiting => if s.wg = 0 then some { s with out := Chan.close s.out, fin := FinPC.done } else none
    | FinPC.done => none
  | FanAct.cRecv =>
    match s.cons, s.out.buf with
    | ConsPC.running, v :: rest =>
      some { s with out := { s.out with buf := rest }, recvd := s.recvd ++ [v] }
    | _, _ => none
  | FanAct.cDone =>
    match s.cons, s.out.buf, s.out.closed with
    | ConsPC.running, [], true => some { s with cons := ConsPC.done }
    | _, _, _ => none

/-- Replay a schedule of fan-out/fan-in actions. -/
def fanRun (s : FanState) (acts : List FanAct) : FanState :=
  runD fanApply s acts

/-- Schedule completing the one-worker stage on input [2, 3]. -/
def fanSched1 : List FanAct :=
  [FanAct.wRecv 0, FanAct.wSend 0, FanAct.wRecv 0, FanAct.wSend 0, FanAct.wClose 0,
   FanAct.mRecv 0, FanAct.mSend 0, FanAct.mRecv 0, FanAct.mSend 0, FanAct.mClose 0,
   FanAct.finC, FanAct.cRecv, FanAct.cRecv, FanAct.cDone]

/-- Schedule completing the one-worker stage on input [5]. -/
def fanSched2 : List FanAct :=
  [FanAct.wRecv 0, FanAct.wSend 0, FanAct.wClose 0,
   FanAct.mRecv 0, FanAct.mSend 0, FanAct.mClose 0,
   FanAct.finC, FanAct.cRecv, FanAct.cDone]

/-- Schedule completing the three-worker stage on input [1, 2, 3, 4, 5],
with the items spread across all three workers. -/
def fanSched3 : List FanAct :=
  [FanAct.wRecv 0, FanAct.wRecv 1, FanAct.wRecv 2, FanAct.wSend 1, FanAct.wSend 0,
   FanAct.wRecv 0, FanAct.wSend 2, FanAct.wRecv 1, FanAct.wSend 0, FanAct.wSend 1,
   FanAct.wClose 2, FanAct.wClose 0, FanAct.wClose 1,
   FanAct.mRecv 1, FanAct.mSend 1, FanAct.mRecv 0, FanAct.mSend 0,
   FanAct.mRecv 0, FanAct.mSend 0, FanAct.mRecv 2, FanAct.mSend 2,
   FanAct.mRecv 1, FanAct.mSend 1, FanAct.mClose 0, FanAct.mClose 1, FanAct.mClose 2,
   FanAct.finC, FanAct.cRecv, FanAct.cRecv, FanAct.cRecv, FanAct.cRecv, FanAct.cRecv,
   FanAct.cDone]

/-- Image value still held by a fanOut worker between receive and send. -/
def wHeld : WorkerPC → Multiset Nat
  | WorkerPC.sending v => {v * v}
  | _ => 0

/-- Value still held by a fanIn merge goroutine between receive and send. -/
def mHeld : MergePC → Multiset Nat
  | MergePC.sending v => {v}
  | _ => 0

/-- Multiset of items buffered in a channel. -/
def bufM (c : Chan Nat) : Multiset Nat := ↑c.buf

/-- Every item of the stage, counted once wherever it currently sits:
still in the input (counted by its image), in a worker's hand, buffered in
a private channel, in a merge goroutine's hand, buffered in the merged
output, or already received by the consumer. -/
def fanLoad (s : FanState) : Multiset Nat :=
  ↑(s.input.buf.map (fun v => v * v)) + (s.workers.map wHeld).sum + (s.mids.map bufM).sum
    + (s.merges.map mHeld).sum + ↑s.out.buf + ↑s.recvd

/-- Number of fanIn merge goroutines that have not yet called Done. -/
def notDoneCount (l : List MergePC) : Nat :=
  (l.map (fun m => if m = MergePC.done then 0 else 1)).sum

/-! Helper lemmas. -/

theorem getElem?_set_self {β : Type} (l : List β) (i : Nat) (a b : β) (h : l[i]? = some a) :
    (l.set i b)[i]? = some b := by
  have hlen : i < l.length := by
    by_contra hc
    push_neg at hc
    rw [List.getElem?_eq_none hc] at h
    exact Option.noConfusion h
  simp [List.getElem?_set, hlen]

theorem getElem?_set_ne {β : Type} (l : List β) (i j : Nat) (b : β) (h : ¬ i = j) :
    (l.set i b)[j]? = l[j]? := by
  simp [List.getElem?_set, h]

theorem sum_map_set {β M : Type} [AddCommMonoid M] (f : β → M) :
    ∀ (l : List β) (i : Nat) (a b : β), l[i]? = some a →
      ((l.set i b).map f).sum + f a = (l.map f).sum + f b := by
  intro l
  induction l with
  | nil => intro i a b h; simp at h
  | cons x xs ih =>
    intro i a b h
    cases i with
    | zero =>
      simp only [List.getElem?_cons_zero, Option.some.injEq] at h
      subst h
      simp only [List.set, List.map_cons, List.sum_cons]
      abel
    | succ m =>
      simp only [List.getElem?_cons_succ] at h
      have hx := ih m a b h
      simp only [List.set, List.map_cons, List.sum_cons]
      rw [add_assoc, add_assoc, hx]

theorem sum_map_eq_zero {β M : Type} [AddCommMonoid M] (f : β → M) (l : List β)
    (h : ∀ x ∈ l, f x = 0) : (l.map f).sum = 0 := by
  apply List.sum_eq_zero
  intro x hx
  rw [List.mem_map] at hx
  obtain ⟨y, hy, rfl⟩ := hx
  exact h y hy

theorem coe_cons_multiset (x : Nat) (l : List Nat) : (↑(x :: l) : Multiset Nat) = {x} + ↑l := by
  rw [← Multiset.cons_coe, ← Multiset.singleton_add]

theorem coe_append_multiset (l₁ l₂ : List Nat) :
    (↑(l₁ ++ l₂) : Multiset Nat) = ↑l₁ + ↑l₂ := by
  exact_mod_cast rfl

theorem range'_one_concat (n : Nat) (h : 1 ≤ n) :
    List.range' 1 (n - 1) ++ [n] = List.range' 1 n := by
  have h2 : n - 1 + 1 = n := by omega
  have hc := @List.range'_concat 1 1 (n - 1)
  rw [h2] at hc
  have h3 : 1 + 1 * (n - 1) = n := by omega
  rw [h3] at hc
  exact hc.symm

theorem runD_reach {σ τ : Type} (R : σ → σ → Prop) (f : σ → τ → Option σ)
    (hf : ∀ s a s', f s a = some s' → R s s') (acts : List τ) :
    ∀ s : σ, Relation.ReflTransGen R s (runD f s acts) := by
  induction acts with
  | nil => intro s; exact Relation.ReflTransGen.refl
  | cons a as ih =>
    intro s
    have h1 : Relation.ReflTransGen R s ((f s a).getD s) := by
      cases hfa : f s a with
      | none => exact Relation.ReflTransGen.refl
      | some t => exact Relation.ReflTransGen.single (hf s a t hfa)
    exact Relation.ReflTransGen.trans h1 (ih ((f s a).getD s))

/-! Soundness of the executable steppers with respect to the step
relations: every state the schedulers actually produce is reachable. -/

theorem pcApply_sound (count : Nat) (s : PCState) (a : PCAct) (s' : PCState)
    (h : pcApply count s a = some s') : PCStep count s s' := by
  cases a with
  | sendA =>
    simp only [pcApply] at h
    split at h
    · injection h with h2
      subst h2
      exact PCStep.prodSend s (by assumption)
    · exact Option.noConfusion h
  | closeA =>
    simp only [pcApply] at h
    split at h
    · split at h
      next hcl =>
        injection h with h2
        subst h2
        exact PCStep.prodClose s (by assumption) hcl
      next => exact Option.noConfusion h
    · exact Option.noConfusion h
  | recvA =>
    simp only [pcApply] at h
    split at h
    next v rest hd hb =>
      injection h with h2
      subst h2
      exact PCStep.consRecv s v rest hd hb
    next => exact Option.noConfusion h
  | finishA =>
    simp only [pcApply] at h
    split at h
    next hd hb hc =>
      injection h with h2
      subst h2
      exact PCStep.consFinish s hd hb hc
    next => exact Option.noConfusion h

theorem wgApply_sound (K : Nat) (s : WgState) (a : WgAct) (s' : WgState)
    (h : wgApply K s a = some s') : WgStep K s s' := by
  cases a with
  | addA =>
    simp only [wgApply] at h
    split at h
    next k hm =>
      injection h with h2
      subst h2
      exact WgStep.add s k hm
    next => exact Option.noConfusion h
  | spawnA =>
    simp only [wgApply] at h
    split at h
    next k hm =>
      injection h with h2
      subst h2
      exact WgStep.spawn s k hm
    next => exact Option.noConfusion h
  | doneA i =>
    simp only [wgApply] at h
    split at h
    next ht =>
      injection h with h2
      subst h2
      exact WgStep.taskDone s i ht
    next => exact Option.noConfusion h
  | waitA =>
    simp only [wgApply] at h
    split at h
    next hm =>
      split at h
      next hc =>
        injection h with h2
        subst h2
        exact WgStep.waitReturn s hm hc
      next => exact Option.noConfusion h
    next => exact Option.noConfusion h

theorem fanApply_sound (s : FanState) (a : FanAct) (s' : FanState)
    (h : fanApply s a = some s') : FanStep s s' := by
  cases a with
  | wRecv i =>
    simp only [fanApply] at h
    split at h
    next v rest hw hb =>
      injection h with h2
      subst h2
      exact FanStep.fanRecv s i v rest hw hb
    next => exact Option.noConfusion h
  | wClose i =>
    simp only [fanApply] at h
    split at h
    next c hw hc hb hcl =>
      injection h with h2
      subst h2
      exact FanStep.fanClose s i c hw hc hb hcl
    next => exact Option.noConfusion h
  | wSend i =>
    simp only [fanApply] at h
    split at h
    next v c hw hc =>
      injection h with h2
      subst h2
      exact FanStep.fanSend s i v c hw hc
    next => exact Option.noConfusion h
  | mRecv i =>
    simp only [fanApply] at h
    split at h
    next c hm hc =>
      split at h
      next v rest hb =>
        injection h with h2
        subst h2
        exact FanStep.mergeRecv s i v rest c hm hc hb
      next => exact Option.noConfusion h
    next => exact Option.noConfusion h
  | mClose i =>
    simp only [fanApply] at h
    split at h
    next c hm hc =>
      split at h
      next hb hcl =>
        injection h with h2
        subst h2
        exact FanStep.mergeClose s i c hm hc hb hcl
      next => exact Option.noConfusion h
    next => exact Option.noConfusion h
  | mSend i =>
    simp only [fanApply] at h
    split at h
    next v hm =>
      injection h with h2
      subst h2
      exact FanStep.mergeSend s i v hm
    next => exact Option.noConfusion h
  | finC =>
    simp only [fanApply] at h
    split at h
    next hf =>
      split at h
      next hwg =>
        injection h with h2
        subst h2
        exact FanStep.finClose s hf hwg
      next => exact Option.noConfusion h
    next => exact Option.noConfusion h
  | cRecv =>
    simp only [fanApply] at h
    split at h
    next v rest hcr hb =>
      injection h with h2
      subst h2
      exact FanStep.consRecv s v rest hcr hb
    next => exact Option.noConfusion h
  | cDone =>
    simp only [fanApply] at h
    split at h
    next hcr hb hcl =>
      injection h with h2
      subst h2
      exact FanStep.consFinish s hcr hb hcl
    next => exact Option.noConfusion h

theorem pcRun_reach (count : Nat) (s : PCState) (acts : List PCAct) :
    Relation.ReflTransGen (PCStep count) s (pcRun count s acts) :=
  runD_reach (PCStep count) (pcApply count) (pcApply_sound count) acts s

theorem wgRun_reach (K : Nat) (s : WgState) (acts : List WgAct) :
    Relation.ReflTransGen (WgStep K) s (wgRun K s acts) :=
  runD_reach (WgStep K) (wgApply K) (wgApply_sound K) acts s

theorem fanRun_reach (s : FanState) (acts : List FanAct) :
    Relation.ReflTransGen FanStep s (fanRun s acts) :=
  runD_reach FanStep fanApply fanApply_sound acts s

/-! Inductive invariant of the producer-consumer pipeline: the values the
consumer has taken, followed by the values still buffered, are exactly the
prefix 1..next-1 the producer has sent so far, in order. -/

structure PCInv (count : Nat) (s : PCState) : Prop where
  nextPos : 1 ≤ s.next
  nextLe : s.next ≤ count + 1
  fifo : s.consumed ++ s.ch.buf = List.range' 1 (s.next - 1)
  closedNext : s.ch.closed = true → s.next = count + 1
  doneCh : s.consDone = true → s.ch.buf = [] ∧ s.ch.closed = true

theorem pcInv_init (count : Nat) : PCInv count pcInit := by
  refine ⟨?_, ?_, ?_, ?_, ?_⟩ <;> simp [pcInit]

theorem pcInv_step {count : Nat} {s s' : PCState} (inv : PCInv count s)
    (h : PCStep count s s') : PCInv count s' := by
  cases h with
  | prodSend hle =>
    refine ⟨?_, ?_, ?_, ?_, ?_⟩
    · show 1 ≤ s.next + 1
      have := inv.nextPos
      omega
    · show s.next + 1 ≤ count + 1
      omega
    · show s.consumed ++ (s.ch.buf ++ [s.next]) = List.range' 1 (s.next + 1 - 1)
      rw [← List.append_assoc, inv.fifo]
      have h2 : s.next + 1 - 1 = s.next := by omega
      rw [h2]
      exact range'_one_concat s.next inv.nextPos
    · intro hcl
      have := inv.closedNext hcl
      show s.next + 1 = count + 1
      omega
    · intro hd
      have h1 := inv.closedNext (inv.doneCh hd).2
      exact absurd h1 (by omega)
  | prodClose hgt hcf =>
    refine ⟨inv.nextPos, inv.nextLe, ?_, ?_, ?_⟩
    · exact inv.fifo
    · intro _
      have := inv.nextLe
      show s.next = count + 1
      omega
    · intro hd
      have h1 := (inv.doneCh hd).2
      rw [hcf] at h1
      exact Bool.noConfusion h1
  | consRecv v rest hd hbuf =>
    refine ⟨inv.nextPos, inv.nextLe, ?_, inv.closedNext, ?_⟩
    · show (s.consumed ++ [v]) ++ rest = List.range' 1 (s.next - 1)
      rw [List.append_assoc]
      have h2 : [v] ++ rest = v :: rest := rfl
      rw [h2, ← hbuf]
      exact inv.fifo
    · intro hd2
      rw [hd] at hd2
      exact Bool.noConfusion hd2
  | consFinish hd hbuf hcl =>
    exact ⟨inv.nextPos, inv.nextLe, inv.fifo, inv.closedNext, fun _ => ⟨hbuf, hcl⟩⟩

theorem pcInv_reach (count : Nat) (s : PCState)
    (h : Relation.ReflTransGen (PCStep count) pcInit s) : PCInv count s := by
  induction h with
  | refl => exact pcInv_init count
  | tail hr hs ih => exact pcInv_step ih hs

/-! Inductive invariant of the WaitGroup demonstration: the counter always
equals the number of spawned-but-unfinished tasks, plus one for an Add
whose task is not yet spawned. -/

theorem countFalse_cons (x : Bool) (l : List Bool) :
    countFalse (x :: l) = (if x then 0 else 1) + countFalse l := by
  simp [countFalse]

theorem countFalse_append (l₁ l₂ : List Bool) :
    countFalse (l₁ ++ l₂) = countFalse l₁ + countFalse l₂ := by
  simp [countFalse]

theorem countFalse_pos (l : List Bool) (i : Nat) (h : l[i]? = some false) :
    0 < countFalse l := by
  have hm : false ∈ l := List.getElem?_mem h
  clear h
  induction hm with
  | head as =>
    rw [countFalse_cons]
    simp
  | tail b hmem ih =>
    rw [countFalse_cons]
    omega

theorem allTrue_of_countFalse (l : List Bool) (h : countFalse l = 0) :
    l.all (fun b => b) = true := by
  induction l with
  | nil => rfl
  | cons x xs ih =>
    rw [countFalse_cons] at h
    cases x with
    | true =>
      simp at h
      simpa using ih h
    | false => simp at h

structure WgInv (K : Nat) (s : WgState) : Prop where
  cnt : s.counter = (countFalse s.tasks : Int) + pend s.main
  lenA : ∀ k, s.main = MainPC.toAdd k → s.tasks.length = k ∧ k < K
  lenS : ∀ k, s.main = MainPC.toSpawn k → s.tasks.length = k ∧ k < K
  lenW : s.main = MainPC.waiting ∨ s.main = MainPC.returned → s.tasks.length = K
  retDone : s.main = MainPC.returned → countFalse s.tasks = 0

theorem wgInv_init (K : Nat) : WgInv K (wgInit K) := by
  by_cases hK : K = 0
  · subst hK
    refine ⟨?_, ?_, ?_, ?_, ?_⟩ <;> simp [wgInit, countFalse, pend]
  · refine ⟨?_, ?_, ?_, ?_, ?_⟩ <;>
      simp [wgInit, hK, countFalse, pend] <;>
      omega

theorem wgInv_step {K : Nat} {s s' : WgState} (inv : WgInv K s)
    (h : WgStep K s s') : WgInv K s' := by
  cases h with
  | add k hm =>
    have hc := inv.cnt
    rw [hm] at hc
    refine ⟨?_, ?_, ?_, ?_, ?_⟩
    · show s.counter + 1 = (countFalse s.tasks : Int) + pend (MainPC.toSpawn k)
      simp only [pend] at hc ⊢
      omega
    · intro k2 hk2
      exact absurd hk2 (by simp)
    · intro k2 hk2
      have h2 : k = k2 := by
        injection hk2
      subst h2
      exact inv.lenA k hm
    · intro hw
      rcases hw with h1 | h1 <;> exact absurd h1 (by simp)
    · intro h1
      exact absurd h1 (by simp)
  | spawn k hm =>
    have hc := inv.cnt
    rw [hm] at hc
    have hlen := inv.lenS k hm
    refine ⟨?_, ?_, ?_, ?_, ?_⟩
    · show s.counter = (countFalse (s.tasks ++ [false]) : Int) +
        pend (if k + 1 < K then MainPC.toAdd (k + 1) else MainPC.waiting)
      rw [countFalse_append]
      have hp : pend (if k + 1 < K then MainPC.toAdd (k + 1) else MainPC.waiting) = 0 := by
        by_cases hlt : k + 1 < K <;> simp [hlt, pend]
      rw [hp]
      simp only [pend] at hc
      have h1 : countFalse [false] = 1 := rfl
      rw [h1]
      push_cast
      omega
    · intro k2 hk2
      by_cases hlt : k + 1 < K
      · rw [if_pos hlt] at hk2
        have h2 : k + 1 = k2 := by injection hk2
        subst h2
        constructor
        · simp [hlen.1]
        · exact hlt
      · rw [if_neg hlt] at hk2
        exact absurd hk2 (by simp)
    · intro k2 hk2
      by_cases hlt : k + 1 < K
      · rw [if_pos hlt] at hk2
        exact absurd hk2 (by simp)
      · rw [if_neg hlt] at hk2
        exact absurd hk2 (by simp)
    · intro hw
      have hK : s.tasks.length + 1 = K := by
        rcases hw with h1 | h1
        · by_cases hlt : k + 1 < K
          · rw [if_pos hlt] at h1
            exact absurd h1 (by simp)
          · have := hlen.2
            omega
        · by_cases hlt : k + 1 < K
          · rw [if_pos hlt] at h1
            exact absurd h1 (by simp)
          · rw [if_neg hlt] at h1
            exact absurd h1 (by simp)
      simpa using hK
    · intro h1
      by_cases hlt : k + 1 < K
      · rw [if_pos hlt] at h1
        exact absurd h1 (by simp)
      · rw [if_neg hlt] at h1
        exact absurd h1 (by simp)
  | taskDone i ht =>
    have hc := inv.cnt
    refine ⟨?_, ?_, ?_, ?_, ?_⟩
    · show s.counter - 1 = (countFalse (s.tasks.set i true) : Int) + pend s.main
      have h2 : countFalse (s.tasks.set i true) + 1 = countFalse s.tasks := by
        have hs := sum_map_set (fun b => if b then 0 else 1) s.tasks i false true ht
        simp at hs
        simpa [countFalse] using hs
      omega
    · intro k2 hk2
      have := inv.lenA k2 hk2
      simpa using this
    · intro k2 hk2
      have := inv.lenS k2 hk2
      simpa using this
    · intro hw
      have := inv.lenW hw
      simpa using this
    · intro h1
      have h0 := inv.retDone h1
      have hpos := countFalse_pos s.tasks i ht
      omega
  | waitReturn hm hc0 =>
    have hc := inv.cnt
    rw [hm] at hc
    simp only [pend] at hc
    refine ⟨?_, ?_, ?_, ?_, ?_⟩
    · show s.counter = (countFalse s.tasks : Int) + pend MainPC.returned
      simp only [pend]
      omega
    · intro k2 hk2
      exact absurd hk2 (by simp)
    · intro k2 hk2
      exact absurd hk2 (by simp)
    · intro _
      exact inv.lenW (Or.inl hm)
    · intro _
      show countFalse s.tasks = 0
      omega

theorem wgInv_reach (K : Nat) (s : WgState)
    (h : Relation.ReflTransGen (WgStep K) (wgInit K) s) : WgInv K s := by
  induction h with
  | refl => exact wgInv_init K
  | tail hr hs ih => exact wgInv_step ih hs

/-! Inductive invariant of the fan-out/fan-in stage.  The key field is
conservation: every item of the input multiset is, at every moment, in
exactly one place (input buffer, a worker's hand, a private channel, a
merge goroutine's hand, the merged output, or the consumer's list), so no
interleaving can lose or duplicate an item.  The remaining fields pin down
the close discipline: a private channel is closed exactly when its worker
has finished, a worker finishes only once the input is drained, the
WaitGroup counter counts unfinished merge goroutines, and the merged
output is closed exactly when the finalizer has run, which requires the
counter to be zero. -/

structure FanInv (S : List Nat) (n : Nat) (s : FanState) : Prop where
  lenW : s.workers.length = n
  lenC : s.mids.length = n
  lenG : s.merges.length = n
  inCl : s.input.closed = true
  conserve : fanLoad s = ↑(S.map (fun v => v * v))
  midW : ∀ (i : Nat) (c : Chan Nat), s.mids[i]? = some c →
    (c.closed = true ↔ s.workers[i]? = some WorkerPC.done)
  doneInput : ∀ (i : Nat), s.workers[i]? = some WorkerPC.done → s.input.buf = []
  wgEq : s.wg = notDoneCount s.merges
  mDone : ∀ (i : Nat) (c : Chan Nat), s.merges[i]? = some MergePC.done → s.mids[i]? = some c →
    c.buf = [] ∧ c.closed = true
  finIffOut : s.out.closed = true ↔ s.fin = FinPC.done
  finWg : s.fin = FinPC.done → s.wg = 0
  consOut : s.cons = ConsPC.done → s.out.buf = [] ∧ s.out.closed = true

theorem notDone_zero_all (l : List MergePC) (h : notDoneCount l = 0) :
    ∀ m ∈ l, m = MergePC.done := by
  induction l with
  | nil => simp
  | cons x xs ih =>
    have hx : notDoneCount (x :: xs) = (if x = MergePC.done then 0 else 1) + notDoneCount xs := by
      simp [notDoneCount]
    rw [hx] at h
    intro m hm
    rcases List.mem_cons.mp hm with h1 | h1
    · subst h1
      by_cases hd : m = MergePC.done
      · exact hd
      · rw [if_neg hd] at h
        omega
    · have h2 : notDoneCount xs = 0 := by omega
      exact ih h2 m h1

theorem fanInv_init (S : List Nat) (n : Nat) : FanInv S n (fanInit S n) := by
  refine ⟨?_, ?_, ?_, rfl, ?_, ?_, ?_, ?_, ?_, ?_, ?_, ?_⟩
  · simp [fanInit]
  · simp [fanInit]
  · simp [fanInit]
  · show ↑(S.map (fun v => v * v)) + ((List.replicate n WorkerPC.running).map wHeld).sum
      + ((List.replicate n { buf := ([] : List Nat), closed := false }).map bufM).sum
      + ((List.replicate n MergePC.running).map mHeld).sum
      + (↑([] : List Nat) : Multiset Nat) + (↑([] : List Nat) : Multiset Nat)
      = ↑(S.map (fun v => v * v))
    rw [sum_map_eq_zero wHeld _ (fun x hx => by rw [List.eq_of_mem_replicate hx]; rfl)]
    rw [sum_map_eq_zero bufM _ (fun x hx => by rw [List.eq_of_mem_replicate hx]; rfl)]
    rw [sum_map_eq_zero mHeld _ (fun x hx => by rw [List.eq_of_mem_replicate hx]; rfl)]
    simp
  · intro i c hc
    show c.closed = true ↔ (List.replicate n WorkerPC.running)[i]? = some WorkerPC.done
    rw [show (fanInit S n).mids = List.replicate n ({ buf := [], closed := false } : Chan Nat)
      from rfl] at hc
    rw [List.getElem?_replicate] at hc
    split at hc
    next hin =>
      injection hc with h2
      subst h2
      simp [List.getElem?_replicate, hin]
    next => exact Option.noConfusion hc
  · intro i hw
    show S = []
    rw [show (fanInit S n).workers = List.replicate n WorkerPC.running from rfl] at hw
    rw [List.getElem?_replicate] at hw
    split at hw
    next =>
      injection hw with h2
      exact WorkerPC.noConfusion h2
    next => exact Option.noConfusion hw
  · show n = notDoneCount (List.replicate n MergePC.running)
    simp [notDoneCount, List.map_replicate, List.sum_replicate]
  · intro i c hm
    show (fanInit S n).mids[i]? = some c → c.buf = [] ∧ c.closed = true
    rw [show (fanInit S n).merges = List.replicate n MergePC.running from rfl,
      List.getElem?_replicate] at hm
    split at hm
    next =>
      injection hm with h2
      exact MergePC.noConfusion h2
    next => exact Option.noConfusion hm
  · show false = true ↔ FinPC.waiting = FinPC.done
    simp
  · intro h1
    exact absurd h1 (by simp [fanInit])
  · intro h1
    exact absurd h1 (by simp [fanInit])

theorem fanInv_step {S : List Nat} {n : Nat} {s s' : FanState} (inv : FanInv S n s)
    (hstep : FanStep s s') : FanInv S n s' := by
  cases hstep with
  | fanRecv i v rest hw hin =>
    refine ⟨?_, ?_, ?_, ?_, ?_, ?_, ?_, ?_, ?_, ?_, ?_, ?_⟩
    · show (s.workers.set i (WorkerPC.sending v)).length = n
      rw [List.length_set]
      exact inv.lenW
    · exact inv.lenC
    · exact inv.lenG
    · exact inv.inCl
    · have hW := sum_map_set wHeld s.workers i WorkerPC.running (WorkerPC.sending v) hw
      rw [show wHeld WorkerPC.running = 0 from rfl, add_zero,
        show wHeld (WorkerPC.sending v) = ({v * v} : Multiset Nat) from rfl] at hW
      show (↑(rest.map (fun x => x * x)) : Multiset Nat)
          + ((s.workers.set i (WorkerPC.sending v)).map wHeld).sum
          + (s.mids.map bufM).sum + (s.merges.map mHeld).sum + ↑s.out.buf + ↑s.recvd
          = ↑(S.map (fun x => x * x))
      rw [hW, ← inv.conserve]
      simp only [fanLoad, hin, List.map_cons, coe_cons_multiset]
      abel
    · intro j c hc
      show c.closed = true ↔ (s.workers.set i (WorkerPC.sending v))[j]? = some WorkerPC.done
      have hc' : s.mids[j]? = some c := hc
      by_cases hij : i = j
      · subst hij
        rw [getElem?_set_self s.workers i WorkerPC.running (WorkerPC.sending v) hw]
        constructor
        · intro hcl
          have h3 := (inv.midW i c hc').mp hcl
          rw [hw] at h3
          injection h3 with h4
          exact WorkerPC.noConfusion h4
        · intro h3
          injection h3 with h4
          exact WorkerPC.noConfusion h4
      · rw [getElem?_set_ne s.workers i j _ hij]
        exact inv.midW j c hc'
    · intro j hj
      show rest = []
      by_cases hij : i = j
      · subst hij
        have hj' : (s.workers.set i (WorkerPC.sending v))[i]? = some WorkerPC.done := hj
        rw [getElem?_set_self s.workers i WorkerPC.running (WorkerPC.sending v) hw] at hj'
        injection hj' with h4
        exact WorkerPC.noConfusion h4
      · have hj' : s.workers[j]? = some WorkerPC.done := by
          have h5 : (s.workers.set i (WorkerPC.sending v))[j]? = some WorkerPC.done := hj
          rwa [getElem?_set_ne s.workers i j _ hij] at h5
        have h0 := inv.doneInput j hj'
        rw [hin] at h0
        exact List.noConfusion h0
    · exact inv.wgEq
    · intro j c h1 h2
      exact inv.mDone j c h1 h2
    · exact inv.finIffOut
    · exact inv.finWg
    · exact inv.consOut
  | fanClose i c hw hc hb hcl =>
    refine ⟨?_, ?_, ?_, ?_, ?_, ?_, ?_, ?_, ?_, ?_, ?_, ?_⟩
    · show (s.workers.set i WorkerPC.done).length = n
      rw [List.length_set]
      exact inv.lenW
    · show (s.mids.set i (Chan.close c)).length = n
      rw [List.length_set]
      exact inv.lenC
    · exact inv.lenG
    · exact inv.inCl
    · have hW := sum_map_set wHeld s.workers i WorkerPC.running WorkerPC.done hw
      rw [show wHeld WorkerPC.running = 0 from rfl, show wHeld WorkerPC.done = 0 from rfl,
        add_zero, add_zero] at hW
      have hM := sum_map_set bufM s.mids i c (Chan.close c) hc
      rw [show bufM (Chan.close c) = bufM c from rfl] at hM
      have hM2 : ((s.mids.set i (Chan.close c)).map bufM).sum = (s.mids.map bufM).sum :=
        add_right_cancel hM
      show (↑(s.input.buf.map (fun x => x * x)) : Multiset Nat)
          + ((s.workers.set i WorkerPC.done).map wHeld).sum
          + ((s.mids.set i (Chan.close c)).map bufM).sum
          + (s.merges.map mHeld).sum + ↑s.out.buf + ↑s.recvd
          = ↑(S.map (fun x => x * x))
      rw [hW, hM2, ← inv.conserve]
      simp only [fanLoad]
    · intro j c2 hc2
      by_cases hij : i = j
      · subst hij
        have hc2' : (s.mids.set i (Chan.close c))[i]? = some c2 := hc2
        rw [getElem?_set_self s.mids i c (Chan.close c) hc] at hc2'
        injection hc2' with h2
        subst h2
        show (Chan.close c).closed = true ↔ (s.workers.set i WorkerPC.done)[i]? = some WorkerPC.done
        rw [getElem?_set_self s.workers i WorkerPC.running WorkerPC.done hw]
        simp [Chan.close]
      · have hc2' : s.mids[j]? = some c2 := by
          have h5 : (s.mids.set i (Chan.close c))[j]? = some c2 := hc2
          rwa [getElem?_set_ne s.mids i j _ hij] at h5
        show c2.closed = true ↔ (s.workers.set i WorkerPC.done)[j]? = some WorkerPC.done
        rw [getElem?_set_ne s.workers i j _ hij]
        exact inv.midW j c2 hc2'
    · intro j hj
      exact hb
    · exact inv.wgEq
    · intro j c2 h1 h2
      by_cases hij : i = j
      · subst hij
        have h2' : (s.mids.set i (Chan.close c))[i]? = some c2 := h2
        rw [getElem?_set_self s.mids i c (Chan.close c) hc] at h2'
        injection h2' with h3
        subst h3
        have h4 := inv.mDone i c h1 hc
        exact ⟨h4.1, rfl⟩
      · have h2' : s.mids[j]? = some c2 := by
          have h5 : (s.mids.set i (Chan.close c))[j]? = some c2 := h2
          rwa [getElem?_set_ne s.mids i j _ hij] at h5
        exact inv.mDone j c2 h1 h2'
    · exact inv.finIffOut
    · exact inv.finWg
    · exact inv.consOut
  | fanSend i v c hw hc =>
    refine ⟨?_, ?_, ?_, ?_, ?_, ?_, ?_, ?_, ?_, ?_, ?_, ?_⟩
    · show (s.workers.set i WorkerPC.running).length = n
      rw [List.length_set]
      exact inv.lenW
    · show (s.mids.set i { c with buf := c.buf ++ [v * v] }).length = n
      rw [List.length_set]
      exact inv.lenC
    · exact inv.lenG
    · exact inv.inCl
    · have hW := sum_map_set wHeld s.workers i (WorkerPC.sending v) WorkerPC.running hw
      rw [show wHeld (WorkerPC.sending v) = ({v * v} : Multiset Nat) from rfl,
        show wHeld WorkerPC.running = 0 from rfl, add_zero] at hW
      have hM := sum_map_set bufM s.mids i c ({ c with buf := c.buf ++ [v * v] }) hc
      have hb1 : bufM ({ c with buf := c.buf ++ [v * v] } : Chan Nat) = bufM c + {v * v} := by
        show (↑(c.buf ++ [v * v]) : Multiset Nat) = ↑c.buf + {v * v}
        rw [coe_append_multiset]
        rfl
      rw [hb1] at hM
      have h5 : (s.mids.map bufM).sum + (bufM c + {v * v})
          = ((s.mids.map bufM).sum + {v * v}) + bufM c := by abel
      rw [h5] at hM
      have hM2 : ((s.mids.set i ({ c with buf := c.buf ++ [v * v] })).map bufM).sum
          = (s.mids.map bufM).sum + {v * v} := add_right_cancel hM
      show (↑(s.input.buf.map (fun x => x * x)) : Multiset Nat)
          + ((s.workers.set i WorkerPC.running).map wHeld).sum
          + ((s.mids.set i ({ c with buf := c.buf ++ [v * v] })).map bufM).sum
          + (s.merges.map mHeld).sum + ↑s.out.buf + ↑s.recvd
          = ↑(S.map (fun x => x * x))
      rw [hM2, ← inv.conserve]
      simp only [fanLoad]
      rw [← hW]
      abel
    · intro j c2 hc2
      by_cases hij : i = j
      · subst hij
        have hc2' : (s.mids.set i ({ c with buf := c.buf ++ [v * v] }))[i]? = some c2 := hc2
        rw [getElem?_set_self s.mids i c _ hc] at hc2'
        injection hc2' with h2
        subst h2
        show c.closed = true ↔ (s.workers.set i WorkerPC.running)[i]? = some WorkerPC.done
        rw [getElem?_set_self s.workers i (WorkerPC.sending v) WorkerPC.running hw]
        have h5 := inv.midW i c hc
        rw [hw] at h5
        constructor
        · intro hcl
          have h6 := h5.mp hcl
          injection h6 with h7
          exact WorkerPC.noConfusion h7
        · intro h6
          injection h6 with h7
          exact WorkerPC.noConfusion h7
      · have hc2' : s.mids[j]? = some c2 := by
          have h5 : (s.mids.set i ({ c with buf := c.buf ++ [v * v] }))[j]? = some c2 := hc2
          rwa [getElem?_set_ne s.mids i j _ hij] at h5
        show c2.closed = true ↔ (s.workers.set i WorkerPC.running)[j]? = some WorkerPC.done
        rw [getElem?_set_ne s.workers i j _ hij]
        exact inv.midW j c2 hc2'
    · intro j hj
      show s.input.buf = []
      by_cases hij : i = j
      · subst hij
        have hj' : (s.workers.set i WorkerPC.running)[i]? = some WorkerPC.done := hj
        rw [getElem?_set_self s.workers i (WorkerPC.sending v) WorkerPC.running hw] at hj'
        injection hj' with h4
        exact WorkerPC.noConfusion h4
      · have hj' : s.workers[j]? = some WorkerPC.done := by
          have h5 : (s.workers.set i WorkerPC.running)[j]? = some WorkerPC.done := hj
          rwa [getElem?_set_ne s.workers i j _ hij] at h5
        exact inv.doneInput j hj'
    · exact inv.wgEq
    · intro j c2 h1 h2
      by_cases hij : i = j
      · subst hij
        have h4 := inv.mDone i c h1 hc
        have h5 := (inv.midW i c hc).mp h4.2
        rw [hw] at h5
        injection h5 with h6
        exact WorkerPC.noConfusion h6
      · have h2' : s.mids[j]? = some c2 := by
          have h5 : (s.mids.set i ({ c with buf := c.buf ++ [v * v] }))[j]? = some c2 := h2
          rwa [getElem?_set_ne s.mids i j _ hij] at h5
        exact inv.mDone j c2 h1 h2'
    · exact inv.finIffOut
    · exact inv.finWg
    · exact inv.consOut
  | mergeRecv i v rest c hm hc hb =>
    refine ⟨?_, ?_, ?_, ?_, ?_, ?_, ?_, ?_, ?_, ?_, ?_, ?_⟩
    · exact inv.lenW
    · show (s.mids.set i { c with buf := rest }).length = n
      rw [List.length_set]
      exact inv.lenC
    · show (s.merges.set i (MergePC.sending v)).length = n
      rw [List.length_set]
      exact inv.lenG
    · exact inv.inCl
    · have hG := sum_map_set mHeld s.merges i MergePC.running (MergePC.sending v) hm
      rw [show mHeld MergePC.running = 0 from rfl, add_zero,
        show mHeld (MergePC.sending v) = ({v} : Multiset Nat) from rfl] at hG
      have hM := sum_map_set bufM s.mids i c ({ c with buf := rest }) hc
      have hb1 : bufM c = {v} + ↑rest := by
        show (↑c.buf : Multiset Nat) = {v} + ↑rest
        rw [hb, coe_cons_multiset]
      have hb2 : bufM ({ c with buf := rest } : Chan Nat) = ↑rest := rfl
      rw [hb1, hb2] at hM
      have h5 : ((s.mids.set i ({ c with buf := rest })).map bufM).sum + ({v} + ↑rest)
          = (((s.mids.set i ({ c with buf := rest })).map bufM).sum + {v}) + ↑rest := by abel
      rw [h5] at hM
      have hM2 : ((s.mids.set i ({ c with buf := rest })).map bufM).sum + {v}
          = (s.mids.map bufM).sum := add_right_cancel hM
      show (↑(s.input.buf.map (fun x => x * x)) : Multiset Nat)
          + (s.workers.map wHeld).sum
          + ((s.mids.set i ({ c with buf := rest })).map bufM).sum
          + ((s.merges.set i (MergePC.sending v)).map mHeld).sum + ↑s.out.buf + ↑s.recvd
          = ↑(S.map (fun x => x * x))
      rw [hG, ← inv.conserve]
      simp only [fanLoad]
      rw [← hM2]
      abel
    · intro j c2 hc2
      by_cases hij : i = j
      · subst hij
        have hc2' : (s.mids.set i ({ c with buf := rest }))[i]? = some c2 := hc2
        rw [getElem?_set_self s.mids i c _ hc] at hc2'
        injection hc2' with h2
        subst h2
        exact inv.midW i c hc
      · have hc2' : s.mids[j]? = some c2 := by
          have h5 : (s.mids.set i ({ c with buf := rest }))[j]? = some c2 := hc2
          rwa [getElem?_set_ne s.mids i j _ hij] at h5
        exact inv.midW j c2 hc2'
    · intro j hj
      exact inv.doneInput j hj
    · have hN := sum_map_set (fun m => if m = MergePC.done then 0 else 1)
        s.merges i MergePC.running (MergePC.sending v) hm
      simp at hN
      show s.wg = notDoneCount (s.merges.set i (MergePC.sending v))
      have h2 : notDoneCount (s.merges.set i (MergePC.sending v)) = notDoneCount s.merges := by
        simpa [notDoneCount] using hN
      rw [h2]
      exact inv.wgEq
    · intro j c2 h1 h2
      by_cases hij : i = j
      · subst hij
        have h1' : (s.merges.set i (MergePC.sending v))[i]? = some MergePC.done := h1
        rw [getElem?_set_self s.merges i MergePC.running (MergePC.sending v) hm] at h1'
        injection h1' with h3
        exact MergePC.noConfusion h3
      · have h1' : s.merges[j]? = some MergePC.done := by
          have h5 : (s.merges.set i (MergePC.sending v))[j]? = some MergePC.done := h1
          rwa [getElem?_set_ne s.merges i j _ hij] at h5
        have h2' : s.mids[j]? = some c2 := by
          have h5 : (s.mids.set i ({ c with buf := rest }))[j]? = some c2 := h2
          rwa [getElem?_set_ne s.mids i j _ hij] at h5
        exact inv.mDone j c2 h1' h2'
    · exact inv.finIffOut
    · exact inv.finWg
    · exact inv.consOut
  | mergeClose i c hm hc hb hcl =>
    refine ⟨?_, ?_, ?_, ?_, ?_, ?_, ?_, ?_, ?_, ?_, ?_, ?_⟩
    · exact inv.lenW
    · exact inv.lenC
    · show (s.merges.set i MergePC.done).length = n
      rw [List.length_set]
      exact inv.lenG
    · exact inv.inCl
    · have hG := sum_map_set mHeld s.merges i MergePC.running MergePC.done hm
      rw [show mHeld MergePC.running = 0 from rfl, show mHeld MergePC.done = 0 from rfl,
        add_zero, add_zero] at hG
      show (↑(s.input.buf.map (fun x => x * x)) : Multiset Nat)
          + (s.workers.map wHeld).sum + (s.mids.map bufM).sum
          + ((s.merges.set i MergePC.done).map mHeld).sum + ↑s.out.buf + ↑s.recvd
          = ↑(S.map (fun x => x * x))
      rw [hG, ← inv.conserve]
      simp only [fanLoad]
    · intro j c2 hc2
      exact inv.midW j c2 hc2
    · intro j hj
      exact inv.doneInput j hj
    · have hN := sum_map_set (fun m => if m = MergePC.done then 0 else 1)
        s.merges i MergePC.running MergePC.done hm
      simp at hN
      show s.wg - 1 = notDoneCount (s.merges.set i MergePC.done)
      have h2 : notDoneCount (s.merges.set i MergePC.done) + 1 = notDoneCount s.merges := by
        simpa [notDoneCount] using hN
      have h3 := inv.wgEq
      omega
    · intro j c2 h1 h2
      by_cases hij : i = j
      · subst hij
        have h3 : c = c2 := by
          have h4 := hc.symm.trans h2
          injection h4
        subst h3
        exact ⟨hb, hcl⟩
      · have h1' : s.merges[j]? = some MergePC.done := by
          have h5 : (s.merges.set i MergePC.done)[j]? = some MergePC.done := h1
          rwa [getElem?_set_ne s.merges i j _ hij] at h5
        exact inv.mDone j c2 h1' h2
    · exact inv.finIffOut
    · intro hf
      have h0 := inv.finWg hf
      show s.wg - 1 = 0
      omega
    · exact inv.consOut
  | mergeSend i v hm =>
    refine ⟨?_, ?_, ?_, ?_, ?_, ?_, ?_, ?_, ?_, ?_, ?_, ?_⟩
    · exact inv.lenW
    · exact inv.lenC
    · show (s.merges.set i MergePC.running).length = n
      rw [List.length_set]
      exact inv.lenG
    · exact inv.inCl
    · have hG := sum_map_set mHeld s.merges i (MergePC.sending v) MergePC.running hm
      rw [show mHeld (MergePC.sending v) = ({v} : Multiset Nat) from rfl,
        show mHeld MergePC.running = 0 from rfl, add_zero] at hG
      show (↑(s.input.buf.map (fun x => x * x)) : Multiset Nat)
          + (s.workers.map wHeld).sum + (s.mids.map bufM).sum
          + ((s.merges.set i MergePC.running).map mHeld).sum
          + ↑(s.out.buf ++ [v]) + ↑s.recvd
          = ↑(S.map (fun x => x * x))
      rw [coe_append_multiset, show (↑[v] : Multiset Nat) = {v} from rfl, ← inv.conserve]
      simp only [fanLoad]
      rw [← hG]
      abel
    · intro j c2 hc2
      exact inv.midW j c2 hc2
    · intro j hj
      exact inv.doneInput j hj
    · have hN := sum_map_set (fun m => if m = MergePC.done then 0 else 1)
        s.merges i (MergePC.sending v) MergePC.running hm
      simp at hN
      show s.wg = notDoneCount (s.merges.set i MergePC.running)
      have h2 : notDoneCount (s.merges.set i MergePC.running) = notDoneCount s.merges := by
        simpa [notDoneCount] using hN
      rw [h2]
      exact inv.wgEq
    · intro j c2 h1 h2
      by_cases hij : i = j
      · subst hij
        have h1' : (s.merges.set i MergePC.running)[i]? = some MergePC.done := h1
        rw [getElem?_set_self s.merges i (MergePC.sending v) MergePC.running hm] at h1'
        injection h1' with h3
        exact MergePC.noConfusion h3
      · have h1' : s.merges[j]? = some MergePC.done := by
          have h5 : (s.merges.set i MergePC.running)[j]? = some MergePC.done := h1
          rwa [getElem?_set_ne s.merges i j _ hij] at h5
        exact inv.mDone j c2 h1' h2
    · exact inv.finIffOut
    · exact inv.finWg
    · intro hcd
      have h4 := inv.consOut hcd
      have h5 := inv.finIffOut.mp h4.2
      have h6 := inv.finWg h5
      have h7 := inv.wgEq
      have h8 : notDoneCount s.merges = 0 := by omega
      have h9 := notDone_zero_all s.merges h8 (MergePC.sending v) (List.getElem?_mem hm)
      exact MergePC.noConfusion h9
  | finClose hf hwg =>
    refine ⟨?_, ?_, ?_, ?_, ?_, ?_, ?_, ?_, ?_, ?_, ?_, ?_⟩
    · exact inv.lenW
    · exact inv.lenC
    · exact inv.lenG
    · exact inv.inCl
    · exact inv.conserve
    · intro j c2 hc2
      exact inv.midW j c2 hc2
    · intro j hj
      exact inv.doneInput j hj
    · exact inv.wgEq
    · intro j c2 h1 h2
      exact inv.mDone j c2 h1 h2
    · show (Chan.close s.out).closed = true ↔ FinPC.done = FinPC.done
      simp [Chan.close]
    · intro _
      exact hwg
    · intro hcd
      have h4 := inv.consOut hcd
      have h5 := inv.finIffOut.mp h4.2
      rw [hf] at h5
      exact FinPC.noConfusion h5
  | consRecv v rest hcr hb =>
    refine ⟨?_, ?_, ?_, ?_, ?_, ?_, ?_, ?_, ?_, ?_, ?_, ?_⟩
    · exact inv.lenW
    · exact inv.lenC
    · exact inv.lenG
    · exact inv.inCl
    · show (↑(s.input.buf.map (fun x => x * x)) : Multiset Nat)
          + (s.workers.map wHeld).sum + (s.mids.map bufM).sum
          + (s.merges.map mHeld).sum + ↑rest + ↑(s.recvd ++ [v])
          = ↑(S.map (fun x => x * x))
      rw [coe_append_multiset, show (↑[v] : Multiset Nat) = {v} from rfl, ← inv.conserve]
      simp only [fanLoad, hb, coe_cons_multiset]
      abel
    · intro j c2 hc2
      exact inv.midW j c2 hc2
    · intro j hj
      exact inv.doneInput j hj
    · exact inv.wgEq
    · intro j c2 h1 h2
      exact inv.mDone j c2 h1 h2
    · exact inv.finIffOut
    · exact inv.finWg
    · intro hcd
      have hcd' : s.cons = ConsPC.done := hcd
      rw [hcr] at hcd'
      exact ConsPC.noConfusion hcd'
  | consFinish hcr hb hcl =>
    refine ⟨?_, ?_, ?_, ?_, ?_, ?_, ?_, ?_, ?_, ?_, ?_, ?_⟩
    · exact inv.lenW
    · exact inv.lenC
    · exact inv.lenG
    · exact inv.inCl
    · exact inv.conserve
    · intro j c2 hc2
      exact inv.midW j c2 hc2
    · intro j hj
      exact inv.doneInput j hj
    · exact inv.wgEq
    · intro j c2 h1 h2
      exact inv.mDone j c2 h1 h2
    · exact inv.finIffOut
    · exact inv.finWg
    · intro _
      exact ⟨hb, hcl⟩

theorem fanInv_reach (S : List Nat) (n : Nat) (s : FanState)
    (h : Relation.ReflTransGen FanStep (fanInit S n) s) : FanInv S n s := by
  induction h with
  | refl => exact fanInv_init S n
  | tail hr hs ih => exact fanInv_step ih hs

/-- Key consequence of the invariant: once the consumer of a stage with at
least one worker has terminated, every stage-internal location is empty,
so the consumer's list carries exactly the image multiset of the input. -/
theorem fan_drained {S : List Nat} {n : Nat} {s : FanState} (inv : FanInv S n s)
    (hn : 0 < n) (hc : s.cons = ConsPC.done) :
    (↑s.recvd : Multiset Nat) = ↑(S.map (fun v => v * v)) := by
  have hout := inv.consOut hc
  have hfin := inv.finIffOut.mp hout.2
  have hwg := inv.finWg hfin
  have hnd : notDoneCount s.merges = 0 := by
    have := inv.wgEq
    omega
  have hall := notDone_zero_all s.merges hnd
  have hGsum : (s.merges.map mHeld).sum = 0 :=
    sum_map_eq_zero mHeld s.merges (fun m hm => by rw [hall m hm]; rfl)
  have hmid : ∀ c ∈ s.mids, c.buf = [] ∧ c.closed = true := by
    intro c hcm
    rcases List.mem_iff_getElem?.mp hcm with ⟨j, hj⟩
    have hjlt : j < s.mids.length := by
      by_contra hcon
      push_neg at hcon
      rw [List.getElem?_eq_none hcon] at hj
      exact Option.noConfusion hj
    have hjm : j < s.merges.length := by
      rw [inv.lenG]
      rw [inv.lenC] at hjlt
      exact hjlt
    have hmj : s.merges[j]? = some MergePC.done := by
      rw [List.getElem?_eq_getElem hjm]
      exact congrArg some (hall _ (List.getElem_mem hjm))
    exact inv.mDone j c hmj hj
  have hMsum : (s.mids.map bufM).sum = 0 :=
    sum_map_eq_zero bufM s.mids (fun c hcm => by
      show (↑c.buf : Multiset Nat) = 0
      rw [(hmid c hcm).1]
      rfl)
  have hwall : ∀ w ∈ s.workers, w = WorkerPC.done := by
    intro w hwm
    rcases List.mem_iff_getElem?.mp hwm with ⟨j, hj⟩
    have hjlt : j < s.workers.length := by
      by_contra hcon
      push_neg at hcon
      rw [List.getElem?_eq_none hcon] at hj
      exact Option.noConfusion hj
    have hjc : j < s.mids.length := by
      rw [inv.lenC]
      rw [inv.lenW] at hjlt
      exact hjlt
    have hcj := List.getElem?_eq_getElem hjc
    have h6 := (inv.midW j (s.mids[j]) hcj).mp (hmid _ (List.getElem_mem hjc)).2
    rw [hj] at h6
    injection h6 with h7
  have hWsum : (s.workers.map wHeld).sum = 0 :=
    sum_map_eq_zero wHeld s.workers (fun w hw => by rw [hwall w hw]; rfl)
  have hinp : s.input.buf = [] := by
    have h0 : 0 < s.workers.length := by
      rw [inv.lenW]
      exact hn
    have h1 := List.getElem?_eq_getElem h0
    have h2 := hwall _ (List.getElem_mem h0)
    exact inv.doneInput 0 (by rw [h1, h2])
  have hcons := inv.conserve
  simp only [fanLoad] at hcons
  rw [hinp, hout.1, hWsum, hMsum, hGsum] at hcons
  simpa using hcons

/-- In a stage whose fanIn is applied to an empty list of channels (no
workers, no merge goroutines), the merged output never carries a value:
the input is untouched, the output buffer stays empty and the consumer
receives nothing, in every reachable state. -/
theorem fanInEmptyInv (S : List Nat) (s : FanState)
    (hr : Relation.ReflTransGen FanStep (fanInit S 0) s) :
    s.workers = [] ∧ s.merges = [] ∧ s.input.buf = S ∧ s.out.buf = [] ∧ s.recvd = [] := by
  induction hr with
  | refl => exact ⟨rfl, rfl, rfl, rfl, rfl⟩
  | tail hr2 hs ih =>
    obtain ⟨hW, hG, hI, hO, hR⟩ := ih
    cases hs with
    | fanRecv i v rest hw hin =>
      rw [hW] at hw
      simp at hw
    | fanClose i c hw hc hb hcl =>
      rw [hW] at hw
      simp at hw
    | fanSend i v c hw hc =>
      rw [hW] at hw
      simp at hw
    | mergeRecv i v rest c hm hc hb =>
      rw [hG] at hm
      simp at hm
    | mergeClose i c hm hc hb hcl =>
      rw [hG] at hm
      simp at hm
    | mergeSend i v hm =>
      rw [hG] at hm
      simp at hm
    | finClose hf hwg => exact ⟨hW, hG, hI, hO, hR⟩
    | consRecv v rest hcr hb =>
      rw [hO] at hb
      simp at hb
    | consFinish hcr hb hcl => exact ⟨hW, hG, hI, hO, hR⟩

/-! The claims. -/

/-- C1: for every finite multiset of items S sent on the shared input
channel of a fan-out/fan-in stage with at least one worker (fanOut with n
workers followed by fanIn over the returned channels), in every
interleaving in which the consumer of the merged output has terminated,
the multiset of items it received equals the image of S under the
squaring transform — every input item is represented exactly once, no item
is lost and none is duplicated, regardless of delivery order across
workers. -/
theorem fanout_fanin_no_loss_no_dup (S : List Nat) (n : Nat) (s : FanState)
    (hn : 0 < n)
    (hr : Relation.ReflTransGen FanStep (fanInit S n) s)
    (hc : s.cons = ConsPC.done) :
    (↑s.recvd : Multiset Nat) = ↑(S.map (fun v => v * v)) :=
  fan_drained (fanInv_reach S n s hr) hn hc

/-- Witness for C1: the one-worker stage on input [2, 3], run to
completion by a concrete schedule, receives exactly the multiset of
squares. -/
theorem fanout_fanin_no_loss_no_dup_witness :
    (↑(fanRun (fanInit [2, 3] 1) fanSched1).recvd : Multiset Nat)
      = ↑([2, 3].map (fun v => v * v)) :=
  fanout_fanin_no_loss_no_dup [2, 3] 1 (fanRun (fanInit [2, 3] 1) fanSched1)
    (by decide) (fanRun_reach (fanInit [2, 3] 1) fanSched1) (by decide)

/-- C2: in every reachable state of the fan-out/fan-in stage, if the
shared merged output channel is closed then every merge task has finished
(called its deferred Done), the dedicated finalizer has run and the
WaitGroup counter is zero — the merged channel is never closed before all
merge tasks finish; moreover a closed private channel means its fan-out
worker has finished, which happens only after the shared input is closed
and drained. -/
theorem fanin_close_discipline (S : List Nat) (n : Nat) (s : FanState)
    (hr : Relation.ReflTransGen FanStep (fanInit S n) s) :
    (s.out.closed = true →
      s.merges.all (fun m => decide (m = MergePC.done)) = true
        ∧ s.fin = FinPC.done ∧ s.wg = 0) ∧
    (∀ (i : Nat) (c : Chan Nat), s.mids[i]? = some c → c.closed = true →
      s.workers[i]? = some WorkerPC.done ∧ s.input.buf = []) := by
  have inv := fanInv_reach S n s hr
  constructor
  · intro hcl
    have hfin := inv.finIffOut.mp hcl
    have hwg := inv.finWg hfin
    have hnd : notDoneCount s.merges = 0 := by
      have := inv.wgEq
      omega
    have hall := notDone_zero_all s.merges hnd
    refine ⟨?_, hfin, hwg⟩
    rw [List.all_eq_true]
    intro m hm
    rw [hall m hm]
    rfl
  · intro i c hc hcl
    have hw := (inv.midW i c hc).mp hcl
    exact ⟨hw, inv.doneInput i hw⟩

/-- Witness for C2: a completed one-worker run with the merged output
closed satisfies the close discipline. -/
theorem fanin_close_discipline_witness :
    (fanRun (fanInit [5] 1) fanSched2).merges.all (fun m => decide (m = MergePC.done)) = true
      ∧ (fanRun (fanInit [5] 1) fanSched2).fin = FinPC.done
      ∧ (fanRun (fanInit [5] 1) fanSched2).wg = 0 :=
  (fanin_close_discipline [5] 1 (fanRun (fanInit [5] 1) fanSched2)
    (fanRun_reach (fanInit [5] 1) fanSched2)).1 (by decide)

/-- C3: for every count, in every interleaving of the single
producer (sending 1..count then closing) with the single consumer (ranging
until closed and drained), once the consumer's loop has ended it has
observed exactly the sequence 1, 2, ..., count in exactly the order
produced — FIFO delivery. -/
theorem producer_consumer_fifo (count : Nat) (s : PCState)
    (hr : Relation.ReflTransGen (PCStep count) pcInit s) (hd : s.consDone = true) :
    s.consumed = List.range' 1 count := by
  have inv := pcInv_reach count s hr
  obtain ⟨hbuf, hcl⟩ := inv.doneCh hd
  have hn := inv.closedNext hcl
  have hf := inv.fifo
  rw [hbuf, List.append_nil, hn] at hf
  simpa using hf

/-- Witness for C3: the count = 5 run delivers [1, 2, 3, 4, 5] in order. -/
theorem producer_consumer_fifo_witness :
    (pcRun 5 pcInit pcSched5).consumed = List.range' 1 5 :=
  producer_consumer_fifo 5 (pcRun 5 pcInit pcSched5) (pcRun_reach 5 pcInit pcSched5)
    (by decide)

/-- C4: fetchWithTimeout's select races the channel receive against the
timer: in every resolution of the race in which the value arrives strictly
before the timer fires, the outcome is the received value and not a
timeout; in every resolution in which the timer fires strictly first, or
the value never arrives, the outcome is the timeout indicator, which
carries no value — the original receive is abandoned. -/
theorem fetchWithTimeout_race (d : Nat) (v : String) (o : FetchOutcome String) :
    (∀ t : Nat, t < d → FetchResolves (some t) d v o → o = FetchOutcome.received v) ∧
    (∀ t : Nat, d < t → FetchResolves (some t) d v o → o = FetchOutcome.timedOut) ∧
    (FetchResolves none d v o → o = FetchOutcome.timedOut) := by
  refine ⟨?_, ?_, ?_⟩
  · intro t ht h
    cases h with
    | chanFirst t2 h1 h2 => rfl
    | timerFirst h1 =>
      have := h1 t rfl
      omega
  · intro t ht h
    cases h with
    | chanFirst t2 h1 h2 =>
      injection h1 with h3
      omega
    | timerFirst h1 => rfl
  · intro h
    cases h with
    | chanFirst t2 h1 h2 => exact Option.noConfusion h1
    | timerFirst h1 => rfl

/-- Witness for C4: a value arriving at 10 against a 50 timer resolves to
the value; a value arriving at 200 against a 50 timer resolves to the
timeout. -/
theorem fetchWithTimeout_race_witness :
    FetchOutcome.received "early" = FetchOutcome.received "early" ∧
    (FetchOutcome.timedOut : FetchOutcome String) = FetchOutcome.timedOut :=
  ⟨(fetchWithTimeout_race 50 "early" (FetchOutcome.received "early")).1 10 (by decide)
      (FetchResolves.chanFirst 10 rfl (by decide)),
   (fetchWithTimeout_race 50 "late" FetchOutcome.timedOut).2.1 200 (by decide)
      (FetchResolves.timerFirst (fun t ht => by injection ht with h2; omega))⟩

/-- C5: for every K, in the WaitGroup demonstration (each of K tasks
registered with Add(1) before being spawned and calling Done exactly once
on completion), in every reachable state in which Wait has returned, all K
tasks have been spawned and all have completed — Wait returns only after
all K complete, never before — and no further step can leave the returned
state, so it returns exactly once. -/
theorem waitGroup_join (K : Nat) (s : WgState)
    (hr : Relation.ReflTransGen (WgStep K) (wgInit K) s)
    (hret : s.main = MainPC.returned) :
    s.tasks.length = K ∧ s.tasks.all (fun b => b) = true ∧
      (∀ s' : WgState, WgStep K s s' → s'.main = MainPC.returned) := by
  have inv := wgInv_reach K s hr
  refine ⟨inv.lenW (Or.inr hret), allTrue_of_countFalse s.tasks (inv.retDone hret), ?_⟩
  intro s' hs'
  cases hs' with
  | add k hm =>
    rw [hret] at hm
    exact MainPC.noConfusion hm
  | spawn k hm =>
    rw [hret] at hm
    exact MainPC.noConfusion hm
  | taskDone i ht => exact hret
  | waitReturn hm hc => rfl

/-- Witness for C5: the K = 2 run reaches the returned state with both
tasks spawned and completed. -/
theorem waitGroup_join_witness :
    (wgRun 2 (wgInit 2) wgSched2).tasks.length = 2 ∧
    (wgRun 2 (wgInit 2) wgSched2).tasks.all (fun b => b) = true :=
  ⟨(waitGroup_join 2 (wgRun 2 (wgInit 2) wgSched2)
      (wgRun_reach 2 (wgInit 2) wgSched2) (by decide)).1,
   (waitGroup_join 2 (wgRun 2 (wgInit 2) wgSched2)
      (wgRun_reach 2 (wgInit 2) wgSched2) (by decide)).2.1⟩

/-- C6: when the transform function fails on a task, the worker captures
the error into that task's Result (error field) instead of stopping: the
worker still produces one Result per task, the failing task's Result
carries the error, and every other task is processed exactly as it would
have been. -/
theorem worker_error_containment (transformFn : Job → Except String String)
    (jobs : List Job) (i : Nat) (j0 : Job) (e : String)
    (hj : jobs[i]? = some j0) (he : transformFn j0 = Except.error e) :
    (runWorker transformFn jobs).length = jobs.length ∧
    (runWorker transformFn jobs)[i]? = some (mkResult transformFn j0) ∧
    (mkResult transformFn j0).err = some e ∧
    (∀ (k : Nat) (jk : Job), jobs[k]? = some jk →
      (runWorker transformFn jobs)[k]? = some (mkResult transformFn jk)) := by
  refine ⟨?_, ?_, ?_, ?_⟩
  · simp [runWorker]
  · simp [runWorker, hj]
  · simp [mkResult, he]
  · intro k jk hk
    simp [runWorker, hk]

/-- Witness for C6: a three-job run in which the transform fails on Job 2:
all three jobs produce Results and Job 2's Result carries the error. -/
theorem worker_error_containment_witness :
    (runWorker demoTransform demoJobs).length = demoJobs.length ∧
    (runWorker demoTransform demoJobs)[1]? = some (mkResult demoTransform { ID := 2, Data := "b" }) ∧
    (mkResult demoTransform { ID := 2, Data := "b" }).err = some "boom" :=
  ⟨(worker_error_containment demoTransform demoJobs 1 { ID := 2, Data := "b" } "boom"
      rfl rfl).1,
   (worker_error_containment demoTransform demoJobs 1 { ID := 2, Data := "b" } "boom"
      rfl rfl).2.1,
   (worker_error_containment demoTransform demoJobs 1 { ID := 2, Data := "b" } "boom"
      rfl rfl).2.2.1⟩

/-- C7: sending on a closed channel yields the explicit fatal-usage-error
signal, never silent acceptance; receiving on a closed channel whose
buffered items are drained returns the explicit "closed, no value"
indicator rather than blocking; and items still buffered when the channel
is closed remain deliverable. -/
theorem channel_close_safety :
    (∀ (c : Chan Nat) (v : Nat), c.closed = true → Chan.send c v = SendResult.sendOnClosed) ∧
    (∀ c : Chan Nat, c.closed = true → c.buf = [] → Chan.recv c = RecvResult.closedEmpty) ∧
    (∀ (c : Chan Nat) (v : Nat) (rest : List Nat), c.buf = v :: rest →
      Chan.recv (Chan.close c) = RecvResult.got v { buf := rest, closed := true }) := by
  refine ⟨?_, ?_, ?_⟩
  · intro c v hcl
    obtain ⟨cb, cc⟩ := c
    subst hcl
    rfl
  · intro c hcl hb
    obtain ⟨cb, cc⟩ := c
    subst hcl
    subst hb
    rfl
  · intro c v rest hb
    obtain ⟨cb, cc⟩ := c
    subst hb
    rfl

/-- Witness for C7 at concrete channels. -/
theorem channel_close_safety_witness :
    Chan.send { buf := ([] : List Nat), closed := true } 5 = SendResult.sendOnClosed ∧
    Chan.recv { buf := ([] : List Nat), closed := true } = RecvResult.closedEmpty ∧
    Chan.recv (Chan.close { buf := [7, 8], closed := false })
      = RecvResult.got 7 { buf := [8], closed := true } :=
  ⟨channel_close_safety.1 { buf := [], closed := true } 5 rfl,
   channel_close_safety.2.1 { buf := [], closed := true } rfl rfl,
   channel_close_safety.2.2 { buf := [7, 8], closed := false } 7 [8] rfl⟩

/-- C8: the three-worker squaring stage over the inputs [1, 2, 3, 4, 5]
(all five sent, input closed, output drained) yields exactly the multiset
of squares, regardless of the order in which results arrive. -/
theorem workerPool_square_example (s : FanState)
    (hr : Relation.ReflTransGen FanStep (fanInit [1, 2, 3, 4, 5] 3) s)
    (hc : s.cons = ConsPC.done) :
    (↑s.recvd : Multiset Nat) = ({1, 4, 9, 16, 25} : Multiset Nat) := by
  have h := fan_drained (fanInv_reach [1, 2, 3, 4, 5] 3 s hr) (by omega) hc
  rw [h]
  decide

set_option maxRecDepth 8000 in
/-- Witness for C8: a completed three-worker run whose results arrive out
of order still drains to the multiset of squares. -/
theorem workerPool_square_example_witness :
    (↑(fanRun (fanInit [1, 2, 3, 4, 5] 3) fanSched3).recvd : Multiset Nat)
      = ({1, 4, 9, 16, 25} : Multiset Nat) :=
  workerPool_square_example (fanRun (fanInit [1, 2, 3, 4, 5] 3) fanSched3)
    (fanRun_reach (fanInit [1, 2, 3, 4, 5] 3) fanSched3) (by decide)

/-- C10: fanIn applied to an empty list of input channels returns a
channel that never carries a value (in every reachable state nothing has
been received and the output buffer is empty), and the finalizer can close
it at once — the two-step schedule reaches a state where the output is
closed and a consumer draining it has terminated rather than blocking. -/
theorem fanin_empty_closes (S : List Nat) :
    (∀ s : FanState, Relation.ReflTransGen FanStep (fanInit S 0) s →
      s.recvd = [] ∧ s.out.buf = []) ∧
    (Relation.ReflTransGen FanStep (fanInit S 0)
        (fanRun (fanInit S 0) [FanAct.finC, FanAct.cDone]) ∧
      (fanRun (fanInit S 0) [FanAct.finC, FanAct.cDone]).out.closed = true ∧
      (fanRun (fanInit S 0) [FanAct.finC, FanAct.cDone]).cons = ConsPC.done) := by
  constructor
  · intro s hr
    have h := fanInEmptyInv S s hr
    exact ⟨h.2.2.2.2, h.2.2.2.1⟩
  · exact ⟨fanRun_reach (fanInit S 0) [FanAct.finC, FanAct.cDone], rfl, rfl⟩

/-- Witness for C10: at the initial state of the empty stage nothing has
been received. -/
theorem fanin_empty_closes_witness :
    (fanInit [7] 0).recvd = [] ∧ (fanInit [7] 0).out.buf = [] :=
  (fanin_empty_closes [7]).1 (fanInit [7] 0) Relation.ReflTransGen.refl

/-- C9: the WaitGroup counter never becomes negative in any reachable
state of the demonstrated usage: every Add(1) happens before the
corresponding task's single Done, so every decrement is preceded by a
matching increment and the counter stays at or above zero for every K and
every interleaving. -/
theorem waitGroup_counter_nonneg (K : Nat) (s : WgState)
    (hr : Relation.ReflTransGen (WgStep K) (wgInit K) s) : 0 ≤ s.counter := by
  have inv := wgInv_reach K s hr
  have hc := inv.cnt
  have hp : 0 ≤ pend s.main := by
    cases s.main <;> simp [pend]
  omega

/-- Witness for C9: a partially completed K = 3 run has a non-negative
counter. -/
theorem waitGroup_counter_nonneg_witness :
    0 ≤ (wgRun 3 (wgInit 3) wgSched3).counter :=
  waitGroup_counter_nonneg 3 (wgRun 3 (wgInit 3) wgSched3)
    (wgRun_reach 3 (wgInit 3) wgSched3)

end LearningGo
